import Mathlib

/-!
Verification of behavioural properties of a repository holding two
applications: an external intel hub (news/forum ingestion with relevance
scoring and an upsert-based store) and a WBR deck agent (an extraction and
insight-synthesis pipeline behind an HTTP API).

Text is modelled as lists of characters (ASCII-faithful).  The Python
regular expressions appearing in the source are embedded as specialized
matchers that follow the compiled pattern character by character; note that
the source writes its patterns inside raw strings with doubled backslashes,
so the compiled regexes contain literal backslash characters rather than
escape sequences, and the embedding reproduces that.
-/

namespace WbrSpec

/-- Text is modelled as a list of characters. -/
abbrev Txt := List Char

/-! ## Secret redaction (wbr_deck_agent/util/redact.py) -/

/-- Character class [A-Za-z0-9]. -/
def isAlnum (c : Char) : Bool :=
  (('A' ≤ c) && (c ≤ 'Z')) || (('a' ≤ c) && (c ≤ 'z')) || (('0' ≤ c) && (c ≤ '9'))

/-- Character class [A-Za-z0-9_]. -/
def isAlnumU (c : Char) : Bool := isAlnum c || (c = '_')

/-- Character class [A-Za-z0-9_-]. -/
def isAlnumUHy (c : Char) : Bool := isAlnumU c || (c = '-')

/-- Drop a literal leading sequence from the front of a list, or fail. -/
def dropLit {α : Type} [DecidableEq α] : List α → List α → Option (List α)
  | [], s => some s
  | _ :: _, [] => none
  | p :: ps, c :: cs => if p = c then dropLit ps cs else none

/-- Length of the maximal leading run of characters satisfying a class. -/
def runLen (cls : Char → Bool) : Txt → Nat
  | [] => 0
  | c :: cs => if cls c then runLen cls cs + 1 else 0

/-- Matcher for one compiled secret pattern at the head of the text.  Every
pattern in the source has the shape: a literal lead-in (which, because the
raw string doubles the backslash, begins with a literal backslash followed
by the letter b), then a character class repeated at least 10 times
(greedy), then the literal two characters backslash and b.  The class never
contains the backslash, so the greedy repetition admits no backtracking and
the matcher is deterministic.  Returns the total matched length. -/
def matchSecretAt (pre : Txt) (cls : Char → Bool) (s : Txt) : Option {n : Nat // 0 < n} :=
  match dropLit pre s with
  | none => none
  | some r =>
    let n := runLen cls r
    if 10 ≤ n then
      match dropLit ['\\', 'b'] (r.drop n) with
      | some _ => some ⟨pre.length + n + 2, by omega⟩
      | none => none
    else none

/-- Placeholder written over every match. -/
def redactedTxt : Txt := ['[', 'R', 'E', 'D', 'A', 'C', 'T', 'E', 'D', ']']

/-- Python re.sub of one secret pattern, scanning left to right over
non-overlapping matches and replacing each with the placeholder.  The fuel
argument only forces structural recursion: every step consumes at least one
character, so fuel equal to the text length (as supplied by subSecret)
never runs out. -/
def subSecretAux (pre : Txt) (cls : Char → Bool) : Nat → Txt → Txt
  | _, [] => []
  | 0, _ :: _ => []
  | fuel + 1, c :: rest =>
    match matchSecretAt pre cls (c :: rest) with
    | some n => redactedTxt ++ subSecretAux pre cls fuel ((c :: rest).drop n.1)
    | none => c :: subSecretAux pre cls fuel rest

/-- Python re.sub of one secret pattern over a whole text. -/
def subSecret (pre : Txt) (cls : Char → Bool) (s : Txt) : Txt :=
  subSecretAux pre cls s.length s

/-- Compiled lead-in of the ghp pattern: literal backslash, b, then ghp_. -/
def ghpPre : Txt := ['\\', 'b', 'g', 'h', 'p', '_']

/-- Compiled lead-in of the github_pat pattern. -/
def githubPatPre : Txt :=
  ['\\', 'b', 'g', 'i', 't', 'h', 'u', 'b', '_', 'p', 'a', 't', '_']

/-- Compiled lead-in of the sk pattern. -/
def skPre : Txt := ['\\', 'b', 's', 'k', '-']

/-- Compiled lead-in of the sk-ant pattern. -/
def skAntPre : Txt := ['\\', 'b', 's', 'k', '-', 'a', 'n', 't', '-']

/-- redact_secrets from util/redact.py: apply the four pattern
substitutions in the order they appear in the source. -/
def redact_secrets (text : Txt) : Txt :=
  let o1 := subSecret ghpPre isAlnum text
  let o2 := subSecret githubPatPre isAlnumU o1
  let o3 := subSecret skPre isAlnumUHy o2
  subSecret skAntPre isAlnumUHy o3

/-- C1: the code fails the claim.  A text consisting of a real GitHub
personal-access token (ghp_ followed by sixteen alphanumerics) is returned
unchanged, because the compiled patterns demand a literal backslash-b
sequence around the token; a text that does spell those literal characters
is the one that gets replaced by the placeholder. -/
theorem C1_redact_secrets_misses_real_tokens :
    redact_secrets (['g', 'h', 'p', '_'] ++ List.replicate 16 'A')
      = ['g', 'h', 'p', '_'] ++ List.replicate 16 'A'
    ∧ redact_secrets
        (['\\', 'b', 'g', 'h', 'p', '_'] ++ List.replicate 16 'A' ++ ['\\', 'b'])
      = redactedTxt := by
  constructor
  · decide
  · decide

/-! ## Relevance scoring (legacy/wyze-intel-hub/app/services/scoring.py) -/

/-- Round half to even at integer precision, the behaviour of Python round
on the exact values arising here. -/
def bankersRound (q : ℚ) : ℤ :=
  let f := ⌊q⌋
  let frac := q - f
  if frac < 1 / 2 then f
  else if 1 / 2 < frac then f + 1
  else if f % 2 = 0 then f else f + 1

/-- Rounding to four decimal places, Python round(x, 4). -/
def round4 (q : ℚ) : ℚ := (bankersRound (q * 10000) : ℚ) / 10000

/-- Recency component max(0.0, 1.0 - min(age_hours / 72.0, 1.0)). -/
def recencyComponent (age : ℚ) : ℚ := max 0 (1 - min (age / 72) 1)

/-- Engagement component min(max(engagement_score, 0) / 500.0, 1.0). -/
def engagementComponent (e : ℤ) : ℚ := min (((max e 0 : ℤ) : ℚ) / 500) 1

/-- Weighted sum (0.72 * recency) + (0.23 * engagement) + (0.05 * bonus)
before clamping. -/
def rawScore (age : ℚ) (e : ℤ) (qb : ℚ) : ℚ :=
  72 / 100 * recencyComponent age + 23 / 100 * engagementComponent e + 5 / 100 * qb

/-- The clamp min(max(score, 0.0), 1.0). -/
def clampedScore (age : ℚ) (e : ℤ) (qb : ℚ) : ℚ :=
  min (max (rawScore age e qb) 0) 1

/-- relevance_score as a function of the item age in hours.  The source
computes age_hours as max((now - published_at) in hours, 0.0); the
nonnegative age itself is the argument here, and the returned value is the
four-decimal rounding of the clamped score. -/
def relevance_score (age : ℚ) (e : ℤ) (qb : ℚ) : ℚ :=
  round4 (clampedScore age e qb)

lemma recencyComponent_eq_of_le (a : ℚ) (_h0 : 0 ≤ a) (h72 : a ≤ 72) :
    recencyComponent a = 1 - a / 72 := by
  unfold recencyComponent
  have h1 : min (a / 72) 1 = a / 72 := by
    apply min_eq_left
    linarith
  rw [h1]
  apply max_eq_right
  linarith

lemma recencyComponent_eq_zero_of_ge (a : ℚ) (h : 72 ≤ a) :
    recencyComponent a = 0 := by
  unfold recencyComponent
  have h1 : min (a / 72) 1 = 1 := by
    apply min_eq_right
    linarith
  rw [h1]
  simp

lemma engagementComponent_bounds (e : ℤ) :
    0 ≤ engagementComponent e ∧ engagementComponent e ≤ 1 := by
  unfold engagementComponent
  constructor
  · apply le_min
    · positivity
    · norm_num
  · exact min_le_right _ _

lemma clampedScore_eq_rawScore (age : ℚ) (e : ℤ) (qb : ℚ)
    (ha : 0 ≤ age) (hq0 : 0 ≤ qb) (hq1 : qb ≤ 1) :
    clampedScore age e qb = rawScore age e qb := by
  have hrec0 : 0 ≤ recencyComponent age := le_max_left _ _
  have hrec1 : recencyComponent age ≤ 1 := by
    unfold recencyComponent
    have : 0 ≤ min (age / 72) 1 := by
      apply le_min
      · positivity
      · norm_num
    apply max_le <;> linarith
  obtain ⟨he0, he1⟩ := engagementComponent_bounds e
  have hraw0 : 0 ≤ rawScore age e qb := by
    unfold rawScore
    positivity
  have hraw1 : rawScore age e qb ≤ 1 := by
    unfold rawScore
    nlinarith
  unfold clampedScore
  rw [max_eq_left hraw0, min_eq_left hraw1]

lemma bankersRound_intCast (n : ℤ) : bankersRound (n : ℚ) = n := by
  unfold bankersRound
  rw [Int.floor_intCast]
  norm_num

lemma clampedScore_zero : clampedScore 0 0 0 = 72 / 100 := by
  rw [clampedScore_eq_rawScore 0 0 0 le_rfl le_rfl (by norm_num)]
  unfold rawScore
  rw [recencyComponent_eq_of_le 0 le_rfl (by norm_num)]
  unfold engagementComponent
  norm_num

/-- C4 as frozen is falsified by the four-decimal rounding of the returned
value: at ages 0 and 1/10000 hours (engagement 0, bonus 0) the function
returns the same number, so the returned score does not strictly decrease
with age on [0, 72]. -/
theorem C4_counterexample_rounded_not_strict :
    relevance_score (1 / 10000) 0 0 = relevance_score 0 0 0 := by
  have h1 : clampedScore (1 / 10000) 0 0 = 719999 / 1000000 := by
    rw [clampedScore_eq_rawScore _ 0 0 (by norm_num) le_rfl (by norm_num)]
    unfold rawScore
    rw [recencyComponent_eq_of_le _ (by norm_num) (by norm_num)]
    unfold engagementComponent
    norm_num
  have hf : ⌊(719999 : ℚ) / 100⌋ = 7199 := by
    rw [Int.floor_eq_iff]
    constructor <;> norm_num
  unfold relevance_score round4
  rw [h1, clampedScore_zero]
  have h2 : (719999 : ℚ) / 1000000 * 10000 = 719999 / 100 := by norm_num
  have h3 : (72 : ℚ) / 100 * 10000 = ((7200 : ℤ) : ℚ) := by norm_num
  rw [h2, h3, bankersRound_intCast]
  unfold bankersRound
  rw [hf]
  norm_num

/-- C4 amended: before the final four-decimal rounding, the clamped score
strictly decreases in age on [0, 72] hours for any engagement and any query
bonus in [0, 1]; the returned rounded score is constant for ages at or
beyond 72; and at age 0 with engagement 0 and bonus 0 the returned value is
exactly 0.72. -/
theorem C4_relevance_monotone_amended :
    (∀ (e : ℤ) (qb a1 a2 : ℚ), 0 ≤ qb → qb ≤ 1 → 0 ≤ a1 → a1 < a2 → a2 ≤ 72 →
      clampedScore a2 e qb < clampedScore a1 e qb)
    ∧ (∀ (e : ℤ) (qb a1 a2 : ℚ), 72 ≤ a1 → 72 ≤ a2 →
      relevance_score a1 e qb = relevance_score a2 e qb)
    ∧ relevance_score 0 0 0 = 72 / 100 := by
  refine ⟨?_, ?_, ?_⟩
  · intro e qb a1 a2 hq0 hq1 h0 hlt h72
    have ha1 : (0:ℚ) ≤ a1 := h0
    have ha2 : (0:ℚ) ≤ a2 := by linarith
    rw [clampedScore_eq_rawScore a1 e qb ha1 hq0 hq1,
      clampedScore_eq_rawScore a2 e qb ha2 hq0 hq1]
    unfold rawScore
    rw [recencyComponent_eq_of_le a1 ha1 (by linarith),
      recencyComponent_eq_of_le a2 ha2 h72]
    have : a1 / 72 < a2 / 72 := by linarith
    nlinarith
  · intro e qb a1 a2 h1 h2
    unfold relevance_score clampedScore rawScore
    rw [recencyComponent_eq_zero_of_ge a1 h1, recencyComponent_eq_zero_of_ge a2 h2]
  · unfold relevance_score round4
    rw [clampedScore_zero]
    have h3 : (72 : ℚ) / 100 * 10000 = ((7200 : ℤ) : ℚ) := by norm_num
    rw [h3, bankersRound_intCast]
    norm_num

/-- Witness instantiating the amended C4 theorem at concrete inputs. -/
theorem C4_relevance_monotone_amended_witness :
    clampedScore 36 0 0 < clampedScore 0 0 0
    ∧ relevance_score 100 0 (1 / 2) = relevance_score 80 0 (1 / 2) :=
  ⟨C4_relevance_monotone_amended.1 0 0 0 36 (by norm_num) (by norm_num)
      (by norm_num) (by norm_num) (by norm_num),
    C4_relevance_monotone_amended.2.1 0 (1 / 2) 100 80 (by norm_num) (by norm_num)⟩

/-! ## Text utilities shared by the deck-agent embedding -/

/-- Shorthand turning a string literal into modelled text. -/
def txt (s : String) : Txt := s.data

/-- Exact rational value standing in for a Python float.  It is kept
unnormalized, with comparisons done by cross-multiplication, so that every
operation reduces inside the kernel.  All float values the claims touch are
decimal literals or decimal parses, which this represents exactly. -/
structure PyNum where
  num : Int
  den : Nat
deriving DecidableEq

/-- Comparison a ≤ b by cross-multiplication (denominators are positive in
every value constructed here). -/
def PyNum.ble (a b : PyNum) : Bool := a.num * (b.den : Int) ≤ b.num * (a.den : Int)

/-- Absolute value. -/
def PyNum.abs (a : PyNum) : PyNum := ⟨|a.num|, a.den⟩

/-- Whitespace characters stripped by Python str.strip(). -/
def isPySpace (c : Char) : Bool :=
  (c = ' ') || (c = '\t') || (c = '\n') || (c = '\r') || (c.toNat = 11) || (c.toNat = 12)

/-- Python str.strip(). -/
def stripTxt (s : Txt) : Txt :=
  ((s.dropWhile isPySpace).reverse.dropWhile isPySpace).reverse

/-- ASCII fragment of Python str.lower(), the only fragment exercised. -/
def lowerChar (c : Char) : Char :=
  if 'A' ≤ c ∧ c ≤ 'Z' then Char.ofNat (c.toNat + 32) else c

/-- Python str.lower() over a text. -/
def toLowerTxt (s : Txt) : Txt := s.map lowerChar

/-- Substring containment, Python needle in haystack. -/
def hasSub (needle : Txt) : Txt → Bool
  | [] => needle.isEmpty
  | c :: t => (dropLit needle (c :: t)).isSome || hasSub needle t

/-- Python truthiness of an optional string: None and the empty string are
falsy. -/
def truthy : Option Txt → Bool
  | none => false
  | some s => !s.isEmpty

/-! ## Insight synthesis (wbr_deck_agent/pipeline/synthesize.py) -/

/-- Character class [a-z0-9]. -/
def isLowerDigit (c : Char) : Bool :=
  (('a' ≤ c) && (c ≤ 'z')) || (('0' ≤ c) && (c ≤ '9'))

/-- Collapse runs of adjacent spaces to one space.  Mapping every character
outside [a-z0-9] to a space and then collapsing space runs is exactly the
substitution of [^a-z0-9]+ by a single space. -/
def collapseSpaces : Txt → Txt
  | [] => []
  | [c] => [c]
  | c :: d :: rest =>
    if c = ' ' ∧ d = ' ' then collapseSpaces (d :: rest)
    else c :: collapseSpaces (d :: rest)

/-- Substitution for the second pattern in canonical_metric_name.  The
source writes it as a raw string with a doubled backslash, so the compiled
regex matches a literal backslash followed by one or more letters s (not
whitespace); each such match becomes one space.  The fuel argument only
forces structural recursion and never runs out when set to the length. -/
def subBackslashSAux : Nat → Txt → Txt
  | _, [] => []
  | 0, s => s
  | fuel + 1, c :: cs =>
    match c, cs with
    | '\\', 's' :: rest => ' ' :: subBackslashSAux fuel (rest.dropWhile (fun d => d = 's'))
    | _, _ => c :: subBackslashSAux fuel cs

/-- canonical_metric_name from synthesize.py. -/
def canonical_metric_name (name : Txt) : Txt :=
  let s1 := toLowerTxt (stripTxt name)
  let s2 := collapseSpaces (s1.map (fun c => if isLowerDigit c then c else ' '))
  let s3 := stripTxt (subBackslashSAux s2.length s2)
  if s3 = [] then txt "unknown_metric" else s3

/-- Length of the maximal leading run of the letter d. -/
def dRun : Txt → Nat := runLen (fun c => c = 'd')

/-- Matcher for the compiled numeric regex of synthesize.py at the head of
the text.  The source raw string doubles every backslash, so the compiled
pattern is: optional sign, a literal backslash, one or more letters d,
optionally followed by a literal backslash, any character but newline,
another literal backslash and one or more letters d.  Returns the matched
text. -/
def numTailMatch (s : Txt) : Option Txt :=
  match s with
  | '\\' :: rest =>
    let n := dRun rest
    if n = 0 then none
    else
      match rest.drop n with
      | '\\' :: a :: '\\' :: rest3 =>
        let m := dRun rest3
        if a ≠ '\n' ∧ m ≠ 0 then
          some ('\\' :: rest.take n ++ '\\' :: a :: '\\' :: rest3.take m)
        else some ('\\' :: rest.take n)
      | _ => some ('\\' :: rest.take n)
  | _ => none

/-- Matcher including the optional leading sign (greedy, with the inherent
backtrack: a sign character is itself never a backslash, so the signless
alternative fails whenever the signed one does). -/
def numMatchAt (s : Txt) : Option Txt :=
  match s with
  | [] => none
  | c :: rest =>
    if c = '-' ∨ c = '+' then
      match numTailMatch rest with
      | some m => some (c :: m)
      | none => numTailMatch (c :: rest)
    else numTailMatch (c :: rest)

/-- re.search with the numeric pattern: first position with a match. -/
def numSearch : Txt → Option Txt
  | [] => none
  | c :: rest =>
    match numMatchAt (c :: rest) with
    | some g => some g
    | none => numSearch rest

/-- Python float() restricted to the shapes reachable here: optional sign,
digits, optional dot and digits; anything else (in particular any text
containing a backslash) raises ValueError, modelled as none. -/
def pyFloat (s : Txt) : Option PyNum :=
  let signed : Int × Txt :=
    match s with
    | '-' :: r => (-1, r)
    | '+' :: r => (1, r)
    | r => (1, r)
  let intPart := signed.2.takeWhile Char.isDigit
  let rest := signed.2.dropWhile Char.isDigit
  let iVal : Nat := intPart.foldl (fun a c => a * 10 + (c.toNat - 48)) 0
  match rest with
  | [] => if intPart = [] then none else some ⟨signed.1 * iVal, 1⟩
  | '.' :: frac =>
    if frac.all Char.isDigit ∧ (intPart ≠ [] ∨ frac ≠ []) then
      let fVal : Nat := frac.foldl (fun a c => a * 10 + (c.toNat - 48)) 0
      some ⟨signed.1 * (iVal * 10 ^ frac.length + fVal), 10 ^ frac.length⟩
    else none
  | _ => none

/-- _parse_pct from synthesize.py. -/
def _parse_pct (s : Option Txt) : Option PyNum :=
  match s with
  | none => none
  | some t =>
    if t.isEmpty then none
    else if ¬ '%' ∈ t then none
    else
      match numSearch (t.filter (fun c => c ≠ ',')) with
      | none => none
      | some g => pyFloat g

/-- _agenda_bonus from synthesize.py: 10 when the agenda notes mention the
topic case-insensitively, 0 otherwise (None and the empty string are
falsy). -/
def _agenda_bonus (topic : Txt) (agenda_notes : Option Txt) : Int :=
  match agenda_notes with
  | none => 0
  | some a =>
    if a.isEmpty then 0
    else if hasSub (toLowerTxt topic) (toLowerTxt a) then 10 else 0

/-- Comparison from pipeline/schemas.py; the field called type in the
source is ctype here. -/
structure Comparison where
  ctype : Txt
  delta_abs : Option Txt
  delta_pct : Option Txt
  prior_value : Option Txt
deriving DecidableEq

/-- Metric from pipeline/schemas.py. -/
structure Metric where
  name : Txt
  value : Txt
  unit : Txt
  directionality : Txt
  comparisons : List Comparison
deriving DecidableEq

/-- SourceRef from pipeline/schemas.py. -/
structure SourceRef where
  filename : Txt
  page : Option Int
deriving DecidableEq

/-- AssetExtraction from pipeline/schemas.py; confidence is a float in the
source, modelled exactly. -/
structure AssetExtraction where
  asset_id : Txt
  source_type : Txt
  source_ref : SourceRef
  dashboard_title : Txt
  time_range : Txt
  metrics : List Metric
  notable_trends : List Txt
  anomalies : List Txt
  tags : List Txt
  confidence : PyNum
  raw_evidence_notes : List Txt
deriving DecidableEq

/-- Evidence from pipeline/schemas.py. -/
structure Evidence where
  asset_id : Txt
  filename : Txt
  page : Option Int
  thumbnail_crop : Option Txt
  note : Option Txt
deriving DecidableEq

/-- Insight from pipeline/schemas.py.  The id comes from uuid4().hex in
the source; it is opaque, never inspected, and modelled as empty text. -/
structure Insight where
  id : Txt
  topic : Txt
  headline : Txt
  what_changed : List Txt
  why_it_matters : List Txt
  discussion_questions : List Txt
  metrics_mentioned : List Txt
  evidence : List Evidence
  labels : List Txt
  importance_score : Int
deriving DecidableEq

/-- _topic_for_extraction from synthesize.py. -/
def _topic_for_extraction (ex : AssetExtraction) : Txt :=
  match ex.tags with
  | [] => txt "misc"
  | t :: _ => t

/-- Distinct values in order of first occurrence (Counter insertion
order). -/
def dedupFirstAux (seen : List Txt) : List Txt → List Txt
  | [] => []
  | t :: rest =>
    if t ∈ seen then dedupFirstAux seen rest
    else t :: dedupFirstAux (t :: seen) rest

/-- Stable insertion for a descending sort: an element keeps its place
before later elements with an equal key. -/
def insDescBy {α : Type} (key : α → Int) (a : α) : List α → List α
  | [] => [a]
  | b :: bs => if key a < key b then b :: insDescBy key a bs else a :: b :: bs

/-- Python sorted(..., reverse=True): stable descending sort by key. -/
def sortDescBy {α : Type} (key : α → Int) : List α → List α
  | [] => []
  | a :: rest => insDescBy key a (sortDescBy key rest)

/-- Topic selection of generate_insights: tags ranked by frequency with
ties in first-appearance order (Counter.most_common), truncated to
max_topics, with the misc fallback when that leaves nothing. -/
def topicsOf (extractions : List AssetExtraction) (max_topics : Nat) : List Txt :=
  let allTags := (extractions.map (fun ex => ex.tags)).flatten
  let ordered := sortDescBy (fun t => (allTags.countP (fun u => decide (u = t)) : Int))
    (dedupFirstAux [] allTags)
  let tops := ordered.take max_topics
  if tops = [] then [txt "misc"] else tops

/-- Number of metric instances sharing a canonical name across all
extractions: the length of metric_instances[canon], which the source reads
back as metric_freq. -/
def metric_freq (extractions : List AssetExtraction) (canon : Txt) : Nat :=
  (((extractions.map (fun ex => ex.metrics)).flatten).map
    (fun m => canonical_metric_name m.name)).countP (fun u => decide (u = canon))

/-- First comparison carrying a (truthy) percentage or absolute delta. -/
def bestComparison (comparisons : List Comparison) : Option Comparison :=
  comparisons.find? (fun c => truthy c.delta_pct || truthy c.delta_abs)

/-- The delta snippet: first truthy of delta_pct, delta_abs and the empty
string, stripped, and prefixed with the comparison type when nonempty. -/
def deltaSnip (best : Option Comparison) : Txt :=
  match best with
  | none => []
  | some c =>
    let raw := if truthy c.delta_pct then c.delta_pct.getD []
      else if truthy c.delta_abs then c.delta_abs.getD [] else []
    let s := stripTxt raw
    if s = [] then [] else c.ctype ++ txt " " ++ s

/-- Importance score of a metric candidate, synthesize.py lines 175-188:
base 10, the percentage bonus when _parse_pct yields a number, 10 for an
absolute delta, the frequency bonus, the agenda bonus, the confidence
adjustment, clamped to [0, 100]. -/
def candidateScore (best : Option Comparison) (freq : Nat) (topic : Txt)
    (agenda_notes : Option Txt) (confidence : PyNum) : Int :=
  let pct := match best with
    | some c => _parse_pct c.delta_pct
    | none => none
  let s1 : Int := 10 + (match pct with
    | some p => if PyNum.ble ⟨10, 1⟩ p.abs then 30
      else if PyNum.ble ⟨5, 1⟩ p.abs then 20 else 10
    | none => 0)
  let s2 := s1 + (match best with
    | some c => if truthy c.delta_abs then 10 else 0
    | none => 0)
  let s3 := s2 + min 20 (5 * max 0 ((freq : Int) - 1))
  let s4 := s3 + _agenda_bonus topic agenda_notes
  let s5 := if PyNum.ble ⟨75, 100⟩ confidence then s4 + 10
    else if PyNum.ble confidence ⟨35, 100⟩ then s4 - 10 else s4
  max 0 (min 100 s5)

/-- asset_thumbs.get(asset_id): lookup in the thumbnail mapping. -/
def lookupThumb (asset_thumbs : List (Txt × Txt)) (k : Txt) : Option Txt :=
  (asset_thumbs.find? (fun p => decide (p.1 = k))).map (fun p => p.2)

/-- One metric candidate of generate_insights. -/
def mkMetricInsight (extractions : List AssetExtraction) (topic : Txt) (ev : Evidence)
    (agenda_notes : Option Txt) (confidence : PyNum) (m : Metric) : Insight :=
  let canon := canonical_metric_name m.name
  let best := bestComparison m.comparisons
  let snip := deltaSnip best
  let headline0 := if stripTxt m.name = [] then canon else stripTxt m.name
  let headline := if snip = [] then headline0 else headline0 ++ txt " (" ++ snip ++ txt ")"
  let base_val := if m.value ≠ [] ∨ m.unit ≠ [] then stripTxt (m.value ++ m.unit) else []
  let what_changed :=
    if base_val ≠ [] ∧ snip ≠ [] then
      [m.name ++ txt ": " ++ base_val ++ txt "; " ++ snip ++ txt "."]
    else if base_val ≠ [] then [m.name ++ txt ": " ++ base_val ++ txt "."]
    else if snip ≠ [] then [m.name ++ txt ": " ++ snip ++ txt "."]
    else [m.name ++ txt ": [NEEDS DATA] value/delta not extracted."]
  { id := []
    topic := topic
    headline := headline
    what_changed := what_changed
    why_it_matters :=
      [txt "Why it matters: keep focus on the few KPIs that moved and align on drivers."]
    discussion_questions := [txt "Question: what are the top 1-2 drivers behind this move?"]
    metrics_mentioned := [m.name]
    evidence := [ev]
    labels := if base_val ≠ [] ∨ snip ≠ [] then [txt "supported"] else [txt "needs_data"]
    importance_score :=
      candidateScore best (metric_freq extractions canon) topic agenda_notes confidence }

/-- The evidence record generate_insights builds once per extraction from
its provenance fields and the thumbnail mapping. -/
def provenanceEvidence (asset_thumbs : List (Txt × Txt)) (ex : AssetExtraction) : Evidence :=
  { asset_id := ex.asset_id
    filename := ex.source_ref.filename
    page := ex.source_ref.page
    thumbnail_crop := lookupThumb asset_thumbs ex.asset_id
    note := none }

/-- The candidates one extraction contributes: one per metric, at most six,
or one trend fallback when it has no metrics; all share one evidence entry
built from the provenance of the extraction. -/
def extractionCandidates (extractions : List AssetExtraction) (topics : List Txt)
    (agenda_notes : Option Txt) (asset_thumbs : List (Txt × Txt))
    (ex : AssetExtraction) : List Insight :=
  let topic0 := _topic_for_extraction ex
  let topic := if topic0 ∈ topics then topic0 else topics.headD []
  let ev : Evidence := provenanceEvidence asset_thumbs ex
  match ex.metrics with
  | [] =>
    let trend := match ex.notable_trends with
      | [] => txt "[NEEDS DATA] No trend extracted."
      | t :: _ => t
    [{ id := []
       topic := topic
       headline := trend
       what_changed := [trend]
       why_it_matters := [txt "Why it matters: [NEEDS DATA] missing structured metrics in extraction."]
       discussion_questions :=
         [txt "Question: which metric(s) on this dashboard should anchor the discussion?"]
       metrics_mentioned := []
       evidence := [ev]
       labels := [txt "needs_data"]
       importance_score := 5 + _agenda_bonus topic agenda_notes }]
  | _ :: _ =>
    (ex.metrics.take 6).map (mkMetricInsight extractions topic ev agenda_notes ex.confidence)

/-- Deduplication on (lower-cased topic, canonical headline) keys, keeping
the first (highest-scored) occurrence. -/
def dedupInsightsAux (seen : List (Txt × Txt)) : List Insight → List Insight
  | [] => []
  | i :: rest =>
    let key := (toLowerTxt i.topic, canonical_metric_name i.headline)
    if key ∈ seen then dedupInsightsAux seen rest
    else i :: dedupInsightsAux (key :: seen) rest

/-- The selection loop: walk the deduplicated score-ordered list, stop once
max_insights are selected, skip a candidate whose topic already has five
selected insights. -/
def selectInsightsAux (max_insights : Nat) : List Insight → Nat → (Txt → Nat) → List Insight
  | [], _, _ => []
  | i :: rest, selCount, counts =>
    if max_insights ≤ selCount then []
    else if 5 ≤ counts i.topic then selectInsightsAux max_insights rest selCount counts
    else i :: selectInsightsAux max_insights rest (selCount + 1)
      (fun t => if t = i.topic then counts t + 1 else counts t)

/-- The final topic list: distinct topics of the selected insights in
encounter order, with the break once max_topics is reached (checked after a
potential append, as in the source). -/
def finalTopicsAux (max_topics : Nat) : List Insight → List Txt → List Txt
  | [], acc => acc
  | i :: rest, acc =>
    let acc2 := if i.topic ∈ acc then acc else acc ++ [i.topic]
    if max_topics ≤ acc2.length then acc2 else finalTopicsAux max_topics rest acc2

/-- generate_insights from pipeline/synthesize.py, returning the final
topic list and the selected insights.  The all_metrics mapping the source
additionally returns is not modelled: no claim mentions it. -/
def generate_insights (extractions : List AssetExtraction) (max_topics max_insights : Nat)
    (agenda_notes : Option Txt) (asset_thumbs : List (Txt × Txt)) :
    List Txt × List Insight :=
  let topics := topicsOf extractions max_topics
  let candidates :=
    (extractions.map (extractionCandidates extractions topics agenda_notes asset_thumbs)).flatten
  let deduped := dedupInsightsAux [] (sortDescBy (fun i => i.importance_score) candidates)
  let selected := selectInsightsAux max_insights deduped 0 (fun _ => 0)
  (finalTopicsAux max_topics selected [], selected)

/-- Concrete extraction input: one metric named Revenue whose WoW
comparison carries the percentage delta +12%. -/
def exC3 : AssetExtraction :=
  { asset_id := txt "a1"
    source_type := txt "image"
    source_ref := { filename := txt "rev.png", page := none }
    dashboard_title := []
    time_range := []
    metrics := [{ name := txt "Revenue", value := [], unit := []
                  directionality := txt "unknown"
                  comparisons := [{ ctype := txt "WoW", delta_abs := none
                                    delta_pct := some (txt "+12%"), prior_value := none }] }]
    notable_trends := []
    anomalies := []
    tags := [txt "revenue"]
    confidence := ⟨1, 2⟩
    raw_evidence_notes := [] }

/-- C3: the code fails the claim.  The numeric regex of _parse_pct is
compiled from a raw string with doubled backslashes, so it only matches
text containing a literal backslash followed by the letter d, and the float
conversion of such a match always fails; on the ordinary percentage delta
+12% the parse returns none and the percentage bonus is never added.  The
insight generated for a metric whose chosen comparison carries +12% scores
the bare base 10 instead of the claimed 10 + 30. -/
theorem C3_percentage_bonus_never_added :
    _parse_pct (some (txt "+12%")) = none
    ∧ ((generate_insights [exC3] 6 12 none []).2.map
        (fun i => i.importance_score)) = [10] := by
  constructor
  · decide
  · decide

lemma selectInsightsAux_length (maxI : Nat) (l : List Insight) :
    ∀ (n : Nat) (counts : Txt → Nat),
      (selectInsightsAux maxI l n counts).length ≤ maxI - n := by
  induction l with
  | nil =>
    intro n counts
    simp [selectInsightsAux]
  | cons i rest ih =>
    intro n counts
    by_cases h1 : maxI ≤ n
    · simp [selectInsightsAux, h1]
    · by_cases h2 : 5 ≤ counts i.topic
      · simpa [selectInsightsAux, h1, h2] using ih n counts
      · have hrec := ih (n + 1) (fun t => if t = i.topic then counts t + 1 else counts t)
        simp only [selectInsightsAux, if_neg h1, if_neg h2, List.length_cons]
        omega

lemma selectInsightsAux_countP (maxI : Nat) (t : Txt) (l : List Insight) :
    ∀ (n : Nat) (counts : Txt → Nat),
      (selectInsightsAux maxI l n counts).countP (fun i => decide (i.topic = t))
        ≤ 5 - counts t := by
  induction l with
  | nil =>
    intro n counts
    simp only [selectInsightsAux, List.countP_nil]
    omega
  | cons i rest ih =>
    intro n counts
    by_cases h1 : maxI ≤ n
    · simp only [selectInsightsAux, if_pos h1, List.countP_nil]
      omega
    · by_cases h2 : 5 ≤ counts i.topic
      · simpa [selectInsightsAux, h1, h2] using ih n counts
      · have hrec := ih (n + 1) (fun u => if u = i.topic then counts u + 1 else counts u)
        simp only [selectInsightsAux, if_neg h1, if_neg h2, List.countP_cons]
        by_cases ht : i.topic = t
        · subst ht
          rw [if_pos rfl] at hrec
          have hone : (if decide (i.topic = i.topic) = true then (1 : Nat) else 0) = 1 := by
            simp
          rw [hone]
          omega
        · have ht2 : ¬ t = i.topic := by
            intro h
            exact ht h.symm
          rw [if_neg ht2] at hrec
          have hg : (decide (i.topic = t)) = false := by
            simp [ht]
          rw [hg]
          simp only [Bool.false_eq_true, if_neg, if_false]
          omega

lemma finalTopicsAux_length (maxT : Nat) (l : List Insight) :
    ∀ acc : List Txt, acc.length < maxT → (finalTopicsAux maxT l acc).length ≤ maxT := by
  induction l with
  | nil =>
    intro acc h
    simpa [finalTopicsAux] using Nat.le_of_lt h
  | cons i rest ih =>
    intro acc h
    have hlen : (if i.topic ∈ acc then acc else acc ++ [i.topic]).length ≤ acc.length + 1 := by
      by_cases hm : i.topic ∈ acc <;> simp [hm]
    simp only [finalTopicsAux]
    by_cases hstop : maxT ≤ (if i.topic ∈ acc then acc else acc ++ [i.topic]).length
    · simp only [if_pos hstop]
      omega
    · simp only [if_neg hstop]
      exact ih _ (Nat.lt_of_not_le hstop)

/-- C7 as frozen is falsified at max_topics = 0, a value the CLI accepts
unvalidated: the topic loop appends before checking the cap, so the final
topic list holds one topic, exceeding max_topics. -/
theorem C7_counterexample_topics_exceed_zero_cap :
    ¬ ((generate_insights [exC3] 0 12 none []).1.length ≤ 0) := by decide

/-- C7 amended: the selected insight list never exceeds max_insights, no
topic contributes more than 5 selected insights, and — provided
max_topics ≥ 1, which the HTTP API validates (the CLI does not) — the
final topic list never exceeds max_topics; a candidate whose topic has
reached the per-topic cap is skipped without consuming the max_insights
budget, scanning continuing with the later candidates. -/
theorem C7_selection_caps_amended :
    (∀ (extractions : List AssetExtraction) (maxT maxI : Nat)
      (agenda : Option Txt) (thumbs : List (Txt × Txt)), 1 ≤ maxT →
      (generate_insights extractions maxT maxI agenda thumbs).2.length ≤ maxI
      ∧ (∀ t : Txt, (generate_insights extractions maxT maxI agenda thumbs).2.countP
          (fun i => decide (i.topic = t)) ≤ 5)
      ∧ (generate_insights extractions maxT maxI agenda thumbs).1.length ≤ maxT)
    ∧ (∀ (maxI : Nat) (counts : Txt → Nat) (n : Nat) (i : Insight) (rest : List Insight),
      n < maxI → 5 ≤ counts i.topic →
      selectInsightsAux maxI (i :: rest) n counts = selectInsightsAux maxI rest n counts) := by
  constructor
  · intro extractions maxT maxI agenda thumbs hT
    refine ⟨?_, ?_, ?_⟩
    · simpa using selectInsightsAux_length maxI _ 0 (fun _ => 0)
    · intro t
      simpa using selectInsightsAux_countP maxI t _ 0 (fun _ => 0)
    · refine finalTopicsAux_length maxT _ [] ?_
      simp only [List.length_nil]
      omega
  · intro maxI counts n i rest hn hc
    simp [selectInsightsAux, Nat.not_le.mpr hn, hc]

/-- Plain insight value used to instantiate the skip clause of the C7
witness. -/
def insW : Insight :=
  { id := []
    topic := txt "misc"
    headline := txt "h"
    what_changed := []
    why_it_matters := []
    discussion_questions := []
    metrics_mentioned := []
    evidence := []
    labels := []
    importance_score := 0 }

/-- Witness instantiating the amended C7 theorem at concrete inputs. -/
theorem C7_selection_caps_amended_witness :
    ((generate_insights [exC3] 1 2 none []).2.length ≤ 2
      ∧ (∀ t : Txt, (generate_insights [exC3] 1 2 none []).2.countP
          (fun i => decide (i.topic = t)) ≤ 5)
      ∧ (generate_insights [exC3] 1 2 none []).1.length ≤ 1)
    ∧ selectInsightsAux 3 (insW :: []) 0 (fun _ => 5)
        = selectInsightsAux 3 [] 0 (fun _ => 5) :=
  ⟨C7_selection_caps_amended.1 [exC3] 1 2 none [] (by decide),
    C7_selection_caps_amended.2 3 (fun _ => 5) 0 insW [] (by decide) (by decide)⟩

lemma mem_insDescBy {α : Type} (key : α → Int) (b : α) (l : List α) (a : α)
    (h : a ∈ insDescBy key b l) : a = b ∨ a ∈ l := by
  induction l with
  | nil =>
    simp [insDescBy] at h
    exact Or.inl h
  | cons c cs ih =>
    simp only [insDescBy] at h
    by_cases hk : key b < key c
    · rw [if_pos hk] at h
      rcases List.mem_cons.mp h with h1 | h2
      · exact Or.inr (List.mem_cons.mpr (Or.inl h1))
      · rcases ih h2 with h3 | h4
        · exact Or.inl h3
        · exact Or.inr (List.mem_cons.mpr (Or.inr h4))
    · rw [if_neg hk] at h
      rcases List.mem_cons.mp h with h1 | h2
      · exact Or.inl h1
      · exact Or.inr h2

lemma mem_sortDescBy {α : Type} (key : α → Int) (l : List α) (a : α)
    (h : a ∈ sortDescBy key l) : a ∈ l := by
  induction l with
  | nil => simp [sortDescBy] at h
  | cons c cs ih =>
    simp only [sortDescBy] at h
    rcases mem_insDescBy key c _ a h with h1 | h2
    · exact List.mem_cons.mpr (Or.inl h1)
    · exact List.mem_cons.mpr (Or.inr (ih h2))

lemma mem_dedupInsightsAux (l : List Insight) :
    ∀ (seen : List (Txt × Txt)) (i : Insight), i ∈ dedupInsightsAux seen l → i ∈ l := by
  induction l with
  | nil =>
    intro seen i h
    simp [dedupInsightsAux] at h
  | cons j rest ih =>
    intro seen i h
    simp only [dedupInsightsAux] at h
    by_cases hk : (toLowerTxt j.topic, canonical_metric_name j.headline) ∈ seen
    · rw [if_pos hk] at h
      exact List.mem_cons.mpr (Or.inr (ih _ i h))
    · rw [if_neg hk] at h
      rcases List.mem_cons.mp h with h1 | h2
      · exact List.mem_cons.mpr (Or.inl h1)
      · exact List.mem_cons.mpr (Or.inr (ih _ i h2))

lemma mem_selectInsightsAux (maxI : Nat) (l : List Insight) :
    ∀ (n : Nat) (counts : Txt → Nat) (i : Insight),
      i ∈ selectInsightsAux maxI l n counts → i ∈ l := by
  induction l with
  | nil =>
    intro n counts i h
    simp [selectInsightsAux] at h
  | cons j rest ih =>
    intro n counts i h
    simp only [selectInsightsAux] at h
    by_cases h1 : maxI ≤ n
    · rw [if_pos h1] at h
      simp at h
    · rw [if_neg h1] at h
      by_cases h2 : 5 ≤ counts j.topic
      · rw [if_pos h2] at h
        exact List.mem_cons.mpr (Or.inr (ih _ _ i h))
      · rw [if_neg h2] at h
        rcases List.mem_cons.mp h with h3 | h4
        · exact List.mem_cons.mpr (Or.inl h3)
        · exact List.mem_cons.mpr (Or.inr (ih _ _ i h4))

lemma evidence_of_extractionCandidates (extractions : List AssetExtraction)
    (topics : List Txt) (agenda : Option Txt) (thumbs : List (Txt × Txt))
    (ex : AssetExtraction) (ins : Insight)
    (h : ins ∈ extractionCandidates extractions topics agenda thumbs ex) :
    ins.evidence = [provenanceEvidence thumbs ex] := by
  simp only [extractionCandidates] at h
  cases hm : ex.metrics with
  | nil =>
    rw [hm] at h
    simp only [List.mem_singleton] at h
    subst h
    rfl
  | cons m ms =>
    rw [hm] at h
    simp only [List.mem_map] at h
    obtain ⟨m2, _hm2, heq⟩ := h
    subst heq
    rfl

/-- C10: every selected insight carries exactly one evidence entry, and
that entry's asset id, filename and page are the provenance fields of the
extraction that produced the insight, with the thumbnail crop equal to
that asset's entry in the thumbnail mapping. -/
theorem C10_single_evidence_provenance :
    ∀ (extractions : List AssetExtraction) (maxT maxI : Nat) (agenda : Option Txt)
      (thumbs : List (Txt × Txt)) (ins : Insight),
      ins ∈ (generate_insights extractions maxT maxI agenda thumbs).2 →
      ∃ ex, ex ∈ extractions ∧ ins.evidence = [provenanceEvidence thumbs ex] := by
  intro extractions maxT maxI agenda thumbs ins hmem
  simp only [generate_insights] at hmem
  have h1 : ins ∈ (extractions.map (extractionCandidates extractions
      (topicsOf extractions maxT) agenda thumbs)).flatten := by
    have h2 := mem_selectInsightsAux _ _ _ _ _ hmem
    have h3 := mem_dedupInsightsAux _ _ _ h2
    exact mem_sortDescBy _ _ _ h3
  rw [List.mem_flatten] at h1
  obtain ⟨cand, hcand, hins⟩ := h1
  rw [List.mem_map] at hcand
  obtain ⟨ex, hex, hc⟩ := hcand
  subst hc
  exact ⟨ex, hex, evidence_of_extractionCandidates _ _ _ _ _ _ hins⟩

/-- Thumbnail mapping used by the C10 witness. -/
def thumbsW : List (Txt × Txt) := [(txt "a1", txt "thumbs/a1.png")]

/-- Witness instantiating the C10 theorem at a concrete run of the
synthesis. -/
theorem C10_single_evidence_provenance_witness :
    ∃ ex, ex ∈ [exC3] ∧
      (((generate_insights [exC3] 6 12 none thumbsW).2).headD insW).evidence
        = [provenanceEvidence thumbsW ex] :=
  C10_single_evidence_provenance [exC3] 6 12 none thumbsW _ (by decide)

/-! ## Intel item upsert (app/services/repository.py and
app/services/intelligence.py) -/

/-- One payload dict as produced by _finalize_item: every key the upsert
reads is present there, so the .get defaults of the source never fire.
Timestamps are epoch integers; float scores are exact rationals. -/
structure IntelPayload where
  topic : Txt
  entity : Txt
  source_type : Txt
  source_name : Txt
  title : Txt
  url : Txt
  summary : Txt
  published_at : Int
  engagement_score : Int
  sentiment_score : PyNum
  relevance_score : PyNum
  raw : Txt
deriving DecidableEq

/-- One stored IntelItem row (the fields the upsert touches). -/
structure IntelItem where
  topic : Txt
  entity : Txt
  source_type : Txt
  source_name : Txt
  title : Txt
  url : Txt
  summary : Txt
  published_at : Int
  fetched_at : Int
  engagement_score : Int
  sentiment_score : PyNum
  relevance_score : PyNum
  raw_json : Txt
deriving DecidableEq

/-- The row inserted for a fresh payload; fetched_at is the insertion
time. -/
def newIntelItem (now : Int) (p : IntelPayload) : IntelItem :=
  { topic := p.topic
    entity := p.entity
    source_type := p.source_type
    source_name := p.source_name
    title := p.title
    url := p.url
    summary := p.summary
    published_at := p.published_at
    fetched_at := now
    engagement_score := p.engagement_score
    sentiment_score := p.sentiment_score
    relevance_score := p.relevance_score
    raw_json := p.raw }

/-- The in-place update of an existing row: exactly the assignments of
upsert_intel_item (topic and url are left untouched). -/
def updatedIntelItem (now : Int) (it : IntelItem) (p : IntelPayload) : IntelItem :=
  { it with
    title := p.title
    summary := p.summary
    published_at := p.published_at
    fetched_at := now
    engagement_score := p.engagement_score
    sentiment_score := p.sentiment_score
    relevance_score := p.relevance_score
    source_name := p.source_name
    source_type := p.source_type
    entity := p.entity
    raw_json := p.raw }

/-- The identity key match of the upsert lookup. -/
def keyMatches (it : IntelItem) (p : IntelPayload) : Bool :=
  decide (it.topic = p.topic) && decide (it.entity = p.entity) && decide (it.url = p.url)

/-- upsert_intel_item: update the first row matching the payload's
(topic, entity, url) and report false, else append a new row and report
true. -/
def upsert_intel_item (now : Int) : List IntelItem → IntelPayload → List IntelItem × Bool
  | [], p => ([newIntelItem now p], true)
  | it :: rest, p =>
    if keyMatches it p then (updatedIntelItem now it p :: rest, false)
    else
      let r := upsert_intel_item now rest p
      (it :: r.1, r.2)

/-- The five counters of IngestionStats. -/
structure IngestionStats where
  inserted : Nat
  updated : Nat
  skipped : Nat
  deleted_old : Nat
  errors : Nat
deriving DecidableEq

/-- The loop body of _store_batch carrying the in-batch seen-keys set. -/
def storeBatchLoop (now : Int) :
    List IntelItem → IngestionStats → List (Txt × Txt × Txt) → List IntelPayload →
    List IntelItem × IngestionStats
  | db, stats, _, [] => (db, stats)
  | db, stats, seen, p :: rest =>
    if p.title = [] ∨ p.url = [] then
      storeBatchLoop now db { stats with skipped := stats.skipped + 1 } seen rest
    else if (p.topic, p.entity, p.url) ∈ seen then
      storeBatchLoop now db { stats with skipped := stats.skipped + 1 } seen rest
    else
      let r := upsert_intel_item now db p
      if r.2 then
        storeBatchLoop now r.1 { stats with inserted := stats.inserted + 1 }
          ((p.topic, p.entity, p.url) :: seen) rest
      else
        storeBatchLoop now r.1 { stats with updated := stats.updated + 1 }
          ((p.topic, p.entity, p.url) :: seen) rest

/-- _store_batch from intelligence.py: a fresh seen-keys set per call. -/
def _store_batch (now : Int) (db : List IntelItem) (stats : IngestionStats)
    (items : List IntelPayload) : List IntelItem × IngestionStats :=
  storeBatchLoop now db stats [] items

/-- C5: storing a payload into an empty store and then, in a second batch
call, a payload with the same (topic, entity, url), leaves exactly one row
whose mutable fields come from the second payload (fetched_at being the
second call's time); the first call counts one insert, the second counts
one update and no insert. -/
theorem C5_upsert_same_key_updates :
    ∀ (now1 now2 : Int) (p1 p2 : IntelPayload) (stats0 : IngestionStats),
      p1.title ≠ [] → p1.url ≠ [] → p2.title ≠ [] →
      p2.topic = p1.topic → p2.entity = p1.entity → p2.url = p1.url →
      (_store_batch now1 [] stats0 [p1]).2.inserted = stats0.inserted + 1
      ∧ (_store_batch now1 [] stats0 [p1]).2.updated = stats0.updated
      ∧ (_store_batch now2 (_store_batch now1 [] stats0 [p1]).1
          (_store_batch now1 [] stats0 [p1]).2 [p2]).1
        = [updatedIntelItem now2 (newIntelItem now1 p1) p2]
      ∧ (_store_batch now2 (_store_batch now1 [] stats0 [p1]).1
          (_store_batch now1 [] stats0 [p1]).2 [p2]).2.inserted
        = stats0.inserted + 1
      ∧ (_store_batch now2 (_store_batch now1 [] stats0 [p1]).1
          (_store_batch now1 [] stats0 [p1]).2 [p2]).2.updated
        = stats0.updated + 1
      ∧ ∀ it ∈ (_store_batch now2 (_store_batch now1 [] stats0 [p1]).1
          (_store_batch now1 [] stats0 [p1]).2 [p2]).1,
          it.title = p2.title ∧ it.summary = p2.summary
          ∧ it.published_at = p2.published_at ∧ it.fetched_at = now2
          ∧ it.engagement_score = p2.engagement_score
          ∧ it.sentiment_score = p2.sentiment_score
          ∧ it.relevance_score = p2.relevance_score
          ∧ it.source_name = p2.source_name ∧ it.source_type = p2.source_type
          ∧ it.entity = p2.entity ∧ it.raw_json = p2.raw
          ∧ it.topic = p1.topic ∧ it.url = p1.url := by
  intro now1 now2 p1 p2 stats0 h1t h1u h2t htop hent hurl
  have hskip1 : ¬ (p1.title = [] ∨ p1.url = []) := by
    rintro (h | h)
    · exact h1t h
    · exact h1u h
  have h2u : p2.url ≠ [] := by
    rw [hurl]
    exact h1u
  have hskip2 : ¬ (p2.title = [] ∨ p2.url = []) := by
    rintro (h | h)
    · exact h2t h
    · exact h2u h
  have hbatch1 : _store_batch now1 [] stats0 [p1]
      = ([newIntelItem now1 p1], { stats0 with inserted := stats0.inserted + 1 }) := by
    simp [_store_batch, storeBatchLoop, hskip1, upsert_intel_item]
  have hkey : keyMatches (newIntelItem now1 p1) p2 = true := by
    simp [keyMatches, newIntelItem, htop, hent, hurl]
  have hbatch2 : _store_batch now2 [newIntelItem now1 p1]
      { stats0 with inserted := stats0.inserted + 1 } [p2]
      = ([updatedIntelItem now2 (newIntelItem now1 p1) p2],
        { stats0 with inserted := stats0.inserted + 1, updated := stats0.updated + 1 }) := by
    simp [_store_batch, storeBatchLoop, hskip2, upsert_intel_item, hkey]
  rw [hbatch1]
  dsimp only
  rw [hbatch2]
  dsimp only
  refine ⟨rfl, rfl, rfl, rfl, rfl, ?_⟩
  intro it hit
  simp only [List.mem_singleton] at hit
  subst hit
  simp [updatedIntelItem, newIntelItem, htop, hurl]

/-- First payload of the C5 witness. -/
def p1W : IntelPayload :=
  { topic := txt "wyze"
    entity := txt "wyze"
    source_type := txt "news"
    source_name := txt "Google News"
    title := txt "old title"
    url := txt "https://example.com/a"
    summary := txt "old summary"
    published_at := 100
    engagement_score := 0
    sentiment_score := ⟨0, 1⟩
    relevance_score := ⟨1, 2⟩
    raw := txt "raw1" }

/-- Second payload of the C5 witness: same key, different content. -/
def p2W : IntelPayload :=
  { topic := txt "wyze"
    entity := txt "wyze"
    source_type := txt "forum"
    source_name := txt "Reddit:r/smarthome"
    title := txt "new title"
    url := txt "https://example.com/a"
    summary := txt "new summary"
    published_at := 200
    engagement_score := 7
    sentiment_score := ⟨1, 10⟩
    relevance_score := ⟨3, 4⟩
    raw := txt "raw2" }

/-- Witness instantiating the C5 theorem at concrete payloads. -/
theorem C5_upsert_same_key_updates_witness :
    (_store_batch 1 [] ⟨0, 0, 0, 0, 0⟩ [p1W]).2.inserted = 0 + 1
    ∧ (_store_batch 1 [] ⟨0, 0, 0, 0, 0⟩ [p1W]).2.updated = 0
    ∧ (_store_batch 2 (_store_batch 1 [] ⟨0, 0, 0, 0, 0⟩ [p1W]).1
        (_store_batch 1 [] ⟨0, 0, 0, 0, 0⟩ [p1W]).2 [p2W]).1
      = [updatedIntelItem 2 (newIntelItem 1 p1W) p2W]
    ∧ (_store_batch 2 (_store_batch 1 [] ⟨0, 0, 0, 0, 0⟩ [p1W]).1
        (_store_batch 1 [] ⟨0, 0, 0, 0, 0⟩ [p1W]).2 [p2W]).2.inserted = 0 + 1
    ∧ (_store_batch 2 (_store_batch 1 [] ⟨0, 0, 0, 0, 0⟩ [p1W]).1
        (_store_batch 1 [] ⟨0, 0, 0, 0, 0⟩ [p1W]).2 [p2W]).2.updated = 0 + 1
    ∧ ∀ it ∈ (_store_batch 2 (_store_batch 1 [] ⟨0, 0, 0, 0, 0⟩ [p1W]).1
        (_store_batch 1 [] ⟨0, 0, 0, 0, 0⟩ [p1W]).2 [p2W]).1,
        it.title = p2W.title ∧ it.summary = p2W.summary
        ∧ it.published_at = p2W.published_at ∧ it.fetched_at = 2
        ∧ it.engagement_score = p2W.engagement_score
        ∧ it.sentiment_score = p2W.sentiment_score
        ∧ it.relevance_score = p2W.relevance_score
        ∧ it.source_name = p2W.source_name ∧ it.source_type = p2W.source_type
        ∧ it.entity = p2W.entity ∧ it.raw_json = p2W.raw
        ∧ it.topic = p1W.topic ∧ it.url = p1W.url :=
  C5_upsert_same_key_updates 1 2 p1W p2W ⟨0, 0, 0, 0, 0⟩
    (by decide) (by decide) (by decide) (by decide) (by decide) (by decide)

/-! ## Asset extraction provenance (wbr_deck_agent/pipeline/extract.py) -/

/-- Pydantic validation of a parsed extraction response, restricted to the
constrained fields of the schema: the comparison type literal. -/
def validComparison (c : Comparison) : Bool :=
  decide (c.ctype = txt "WoW") || decide (c.ctype = txt "YoY")
    || decide (c.ctype = txt "vs_target") || decide (c.ctype = txt "vs_prior_period")

/-- Validation of a metric: the directionality literal and its
comparisons. -/
def validMetric (m : Metric) : Bool :=
  (decide (m.directionality = txt "higher_is_better")
    || decide (m.directionality = txt "lower_is_better")
    || decide (m.directionality = txt "unknown"))
  && m.comparisons.all validComparison

/-- AssetExtraction.model_validate: the source_type literal, the
confidence bounds 0..1 and the per-metric constraints; a failing check
raises a validation error, modelled as none. -/
def model_validate (obj : AssetExtraction) : Option AssetExtraction :=
  if (decide (obj.source_type = txt "image") || decide (obj.source_type = txt "pdf_page"))
      && PyNum.ble ⟨0, 1⟩ obj.confidence && PyNum.ble obj.confidence ⟨1, 1⟩
      && obj.metrics.all validMetric
  then some obj else none

/-- The provenance overwrite both provider paths perform on the parsed
response object right before validation: asset_id, source_ref and
source_type are forced to the caller-supplied values. -/
def enforceProvenance (obj : AssetExtraction) (asset_id : Txt) (source_type : Txt)
    (ref : SourceRef) : AssetExtraction :=
  { obj with
    asset_id := asset_id
    source_ref := ref
    source_type := if source_type = txt "pdf_page" then txt "pdf_page" else txt "image" }

/-- _mock_tags_from_filename: filename-substring heuristic tags, at most
six. -/
def _mock_tags_from_filename (filename : Txt) : List Txt :=
  let f := toLowerTxt filename
  let t1 := if hasSub (txt "rev") f || hasSub (txt "revenue") f || hasSub (txt "gmv") f
    then [txt "revenue"] else []
  let t2 := if hasSub (txt "margin") f || hasSub (txt "gross") f then [txt "margin"] else []
  let t3 := if hasSub (txt "sub") f || hasSub (txt "subscription") f
    then [txt "subscriptions"] else []
  let t4 := if hasSub (txt "engage") f || hasSub (txt "active") f || hasSub (txt "dau") f
      || hasSub (txt "mau") f then [txt "engagement"] else []
  let t5 := if hasSub (txt "traffic") f || hasSub (txt "visit") f || hasSub (txt "session") f
    then [txt "traffic"] else []
  let t6 := if hasSub (txt "conv") f || hasSub (txt "conversion") f
    then [txt "conversion"] else []
  (t1 ++ t2 ++ t3 ++ t4 ++ t5 ++ t6).take 6

/-- Decimal rendering of an integer, Python str(i). -/
def intToTxt (i : Int) : Txt :=
  match i with
  | Int.ofNat n => Nat.toDigits 10 n
  | Int.negSucc n => '-' :: Nat.toDigits 10 (n + 1)

/-- The mock-mode extraction of extract_asset: no network call, fixed
confidence 0.1, filename-derived tags, explicit mock notes (the page is
appended only when truthy, so page 0 and None are both omitted). -/
def mockExtraction (asset_id : Txt) (source_type : Txt) (ref : SourceRef) : AssetExtraction :=
  { asset_id := asset_id
    source_type := if source_type = txt "pdf_page" then txt "pdf_page" else txt "image"
    source_ref := ref
    dashboard_title := []
    time_range := []
    metrics := []
    notable_trends := [txt "[NEEDS DATA] Mock mode: no vision extraction performed."]
    anomalies := []
    tags := _mock_tags_from_filename ref.filename
    confidence := ⟨1, 10⟩
    raw_evidence_notes := [txt "Mock mode enabled (no API call).",
      txt "Asset: " ++ ref.filename
        ++ (match ref.page with
            | some p => if p ≠ 0 then txt " page " ++ intToTxt p else []
            | none => [])] }

/-- extract_asset with the network interaction abstracted: in mock mode
the fixed mock record; otherwise the provider path (OpenAI and Anthropic
share this final step verbatim) parses the model response into an object —
supplied here as the response parameter — overwrites the provenance fields
and validates. -/
def extract_asset (mock : Bool) (response : AssetExtraction) (asset_id : Txt)
    (source_type : Txt) (ref : SourceRef) : Option AssetExtraction :=
  if mock then some (mockExtraction asset_id source_type ref)
  else model_validate (enforceProvenance response asset_id source_type ref)

/-- C6: whatever the model response contains for asset_id, source_ref or
source_type, every successfully validated extraction — from the mock path
or from a provider path — carries the caller-supplied asset id and source
ref, and the caller's source type (normalized to image for any caller
value other than pdf_page); the three fields are a function of the
caller's arguments only. -/
theorem C6_provenance_from_caller_only :
    ∀ (mock : Bool) (response : AssetExtraction) (asset_id source_type : Txt)
      (ref : SourceRef) (r : AssetExtraction),
      extract_asset mock response asset_id source_type ref = some r →
      r.asset_id = asset_id ∧ r.source_ref = ref
      ∧ r.source_type = (if source_type = txt "pdf_page" then txt "pdf_page" else txt "image") := by
  intro mock response asset_id source_type ref r h
  cases mock with
  | true =>
    rw [show extract_asset true response asset_id source_type ref
        = some (mockExtraction asset_id source_type ref) from rfl, Option.some_inj] at h
    subst h
    exact ⟨rfl, rfl, rfl⟩
  | false =>
    rw [show extract_asset false response asset_id source_type ref
        = model_validate (enforceProvenance response asset_id source_type ref) from rfl] at h
    unfold model_validate at h
    split at h
    · rw [Option.some_inj] at h
      subst h
      exact ⟨rfl, rfl, rfl⟩
    · exact absurd h (by simp)

/-- Adversarial response for the C6 witness: it claims foreign provenance
fields. -/
def respC6 : AssetExtraction :=
  { asset_id := txt "evil-id"
    source_type := txt "pdf_page"
    source_ref := { filename := txt "evil.png", page := some 9 }
    dashboard_title := []
    time_range := []
    metrics := []
    notable_trends := []
    anomalies := []
    tags := []
    confidence := ⟨1, 2⟩
    raw_evidence_notes := [] }

/-- Caller-supplied source ref of the C6 witness. -/
def refC6 : SourceRef := { filename := txt "real.png", page := none }

/-- Witness instantiating the C6 theorem on the provider path with the
adversarial response. -/
theorem C6_provenance_from_caller_only_witness :
    ((extract_asset false respC6 (txt "a9") (txt "image") refC6).getD respC6).asset_id = txt "a9"
    ∧ ((extract_asset false respC6 (txt "a9") (txt "image") refC6).getD respC6).source_ref = refC6
    ∧ ((extract_asset false respC6 (txt "a9") (txt "image") refC6).getD respC6).source_type
      = (if (txt "image") = txt "pdf_page" then txt "pdf_page" else txt "image") :=
  C6_provenance_from_caller_only false respC6 (txt "a9") (txt "image") refC6 _ (by decide)

/-! ## Anthropic image preparation (wbr_deck_agent/pipeline/extract.py) -/

/-- The 5 MiB ceiling Anthropic enforces on the base64 image field. -/
def ANTHROPIC_IMAGE_MAX_B64_BYTES : Nat := 5 * 1024 * 1024

/-- The raw-byte ceiling derived from it: 3 * floor(limit / 4). -/
def ANTHROPIC_IMAGE_MAX_BYTES : Nat := 3 * (ANTHROPIC_IMAGE_MAX_B64_BYTES / 4)

/-- Length of base64.b64encode output (with padding) for n raw bytes. -/
def b64Len (n : Nat) : Nat := 4 * ((n + 2) / 3)

/-- _mime_for_image as a function of the lower-cased path suffix. -/
def _mime_for_image (suffix : Txt) : Txt :=
  if suffix = txt ".png" then txt "image/png"
  else if suffix = txt ".jpg" ∨ suffix = txt ".jpeg" then txt "image/jpeg"
  else txt "application/octet-stream"

/-- The quality ladder of the re-encode loop. -/
def jpegQualities : List Nat := [90, 85, 80, 75, 70, 65, 60, 55, 50, 45]

/-- Try each quality at the current size and return the first encoding
that fits the raw-byte ceiling.  The encoder (Pillow downscale plus JPEG
encode) is abstracted as a function from longest dimension and quality to
the encoded bytes. -/
def tryQualities (enc : Nat → Nat → List Nat) (dim : Nat) : List Nat → Option (List Nat)
  | [] => none
  | q :: qs =>
    let b := enc dim q
    if b.length ≤ ANTHROPIC_IMAGE_MAX_BYTES then some b else tryQualities enc dim qs

/-- The shrink loop: up to 12 rounds, reducing the longest edge by 15%
between rounds and giving up once it would fall below 640 px.  The source
computes int(longest * 0.85) on floats; the integer dim * 85 / 100 here can
differ by one pixel, which only shifts the size schedule and is observed by
no claim. -/
def shrinkLoop (enc : Nat → Nat → List Nat) : Nat → Nat → Option (List Nat)
  | 0, _ => none
  | fuel + 1, dim =>
    match tryQualities enc dim jpegQualities with
    | some b => some b
    | none =>
      let dim2 := dim * 85 / 100
      if dim2 < 640 then none else shrinkLoop enc fuel dim2

/-- _prepare_image_bytes_for_anthropic with Pillow abstracted: the raw
file bytes, the lower-cased suffix, the re-encoder and the starting
longest-edge target (a float square-root computation in the source) are
parameters.  A PNG or JPEG already under the raw ceiling passes through
unchanged; otherwise the shrink loop must produce a fitting encoding, and
exhaustion is the hard error, modelled as none. -/
def _prepare_image_bytes_for_anthropic (suffix : Txt) (raw : List Nat)
    (enc : Nat → Nat → List Nat) (startDim : Nat) : Option (Txt × List Nat) :=
  let mime := _mime_for_image suffix
  if (mime = txt "image/png" ∨ mime = txt "image/jpeg")
      ∧ raw.length ≤ ANTHROPIC_IMAGE_MAX_BYTES then
    some (mime, raw)
  else
    match shrinkLoop enc 12 startDim with
    | some b => some (txt "image/jpeg", b)
    | none => none

lemma tryQualities_length (enc : Nat → Nat → List Nat) (dim : Nat) (qs : List Nat)
    (b : List Nat) (h : tryQualities enc dim qs = some b) :
    b.length ≤ ANTHROPIC_IMAGE_MAX_BYTES := by
  induction qs with
  | nil => simp [tryQualities] at h
  | cons q rest ih =>
    simp only [tryQualities] at h
    by_cases hq : (enc dim q).length ≤ ANTHROPIC_IMAGE_MAX_BYTES
    · rw [if_pos hq, Option.some_inj] at h
      rw [← h]
      exact hq
    · rw [if_neg hq] at h
      exact ih h

lemma shrinkLoop_length (enc : Nat → Nat → List Nat) (fuel : Nat) :
    ∀ (dim : Nat) (b : List Nat), shrinkLoop enc fuel dim = some b →
      b.length ≤ ANTHROPIC_IMAGE_MAX_BYTES := by
  induction fuel with
  | zero =>
    intro dim b h
    simp [shrinkLoop] at h
  | succ f ih =>
    intro dim b h
    simp only [shrinkLoop] at h
    cases htry : tryQualities enc dim jpegQualities with
    | some b2 =>
      rw [htry, Option.some_inj] at h
      rw [← h]
      exact tryQualities_length enc dim jpegQualities b2 htry
    | none =>
      rw [htry] at h
      by_cases hd : dim * 85 / 100 < 640
      · rw [if_pos hd] at h
        exact absurd h (by simp)
      · rw [if_neg hd] at h
        exact ih _ b h

/-- C8: whenever the Anthropic image preparation returns, the returned
bytes are at most 3 * floor(5 MiB / 4) = 3932160 bytes, so their base64
encoding is at most 5 * 1024 * 1024 characters; and a PNG or JPEG input
already at or under the raw ceiling is returned unchanged with its own
mime type. -/
theorem C8_anthropic_image_size :
    (∀ (suffix : Txt) (raw : List Nat) (enc : Nat → Nat → List Nat) (startDim : Nat)
      (m : Txt) (b : List Nat),
      _prepare_image_bytes_for_anthropic suffix raw enc startDim = some (m, b) →
      b.length ≤ ANTHROPIC_IMAGE_MAX_BYTES ∧ b64Len b.length ≤ 5 * 1024 * 1024)
    ∧ (∀ (suffix : Txt) (raw : List Nat) (enc : Nat → Nat → List Nat) (startDim : Nat),
      (suffix = txt ".png" ∨ suffix = txt ".jpg" ∨ suffix = txt ".jpeg") →
      raw.length ≤ ANTHROPIC_IMAGE_MAX_BYTES →
      _prepare_image_bytes_for_anthropic suffix raw enc startDim
        = some (_mime_for_image suffix, raw))
    ∧ ANTHROPIC_IMAGE_MAX_BYTES = 3932160 := by
  have hb64 : ∀ n : Nat, n ≤ ANTHROPIC_IMAGE_MAX_BYTES → b64Len n ≤ 5 * 1024 * 1024 := by
    intro n hn
    unfold b64Len
    unfold ANTHROPIC_IMAGE_MAX_BYTES ANTHROPIC_IMAGE_MAX_B64_BYTES at hn
    omega
  refine ⟨?_, ?_, by rfl⟩
  · intro suffix raw enc startDim m b h
    unfold _prepare_image_bytes_for_anthropic at h
    split at h
    · rename_i bs heq
      dsimp only at h
      split at h
      · rename_i hc
        rw [Option.some_inj, Prod.mk.injEq] at h
        rw [← h.2]
        exact ⟨hc.2, hb64 _ hc.2⟩
      · rw [Option.some_inj, Prod.mk.injEq] at h
        rw [← h.2]
        have hlen := shrinkLoop_length enc 12 startDim bs heq
        exact ⟨hlen, hb64 _ hlen⟩
    · dsimp only at h
      split at h
      · rename_i hc
        rw [Option.some_inj, Prod.mk.injEq] at h
        rw [← h.2]
        exact ⟨hc.2, hb64 _ hc.2⟩
      · exact absurd h (by simp)
  · intro suffix raw enc startDim hsuf hraw
    have hmime : _mime_for_image suffix = txt "image/png"
        ∨ _mime_for_image suffix = txt "image/jpeg" := by
      rcases hsuf with h | h | h <;> rw [h] <;> simp [_mime_for_image, txt]
    unfold _prepare_image_bytes_for_anthropic
    rw [if_pos ⟨hmime, hraw⟩]

/-- Witness instantiating the C8 theorem: the pass-through branch on a
small PNG, and the size bound it yields. -/
theorem C8_anthropic_image_size_witness :
    _prepare_image_bytes_for_anthropic (txt ".png") [7, 7, 7] (fun _ _ => []) 1200
      = some (_mime_for_image (txt ".png"), [7, 7, 7])
    ∧ ([7, 7, 7].length ≤ ANTHROPIC_IMAGE_MAX_BYTES
      ∧ b64Len [7, 7, 7].length ≤ 5 * 1024 * 1024) :=
  ⟨C8_anthropic_image_size.2.1 (txt ".png") [7, 7, 7] (fun _ _ => []) 1200
      (Or.inl rfl) (by decide),
    C8_anthropic_image_size.1 (txt ".png") [7, 7, 7] (fun _ _ => []) 1200
      (_mime_for_image (txt ".png")) [7, 7, 7]
      (C8_anthropic_image_size.2.1 (txt ".png") [7, 7, 7] (fun _ _ => []) 1200
        (Or.inl rfl) (by decide))⟩

/-! ## Run lifecycle endpoints (wbr_deck_agent/api/main.py) -/

/-- One run row, restricted to the fields these endpoints read or write. -/
structure Run where
  id : Txt
  status : Txt
  stage : Txt
  message : Txt
  progress_current : Int
deriving DecidableEq

/-- One asset row as created by the upload endpoint. -/
structure RunAsset where
  run_id : Txt
  source_type : Txt
  original_filename : Txt
  stored_path : Txt
  page : Option Int
  image_path : Option Txt
  status : Txt
deriving DecidableEq

/-- One queued job; its uuid id is opaque and not modelled. -/
structure Job where
  run_id : Txt
  kind : Txt
deriving DecidableEq

/-- The server state these endpoints touch: the run table, the stored
upload files (path and content bytes), the asset table and the job
queue. -/
structure ApiState where
  runs : List Run
  storedFiles : List (Txt × List Nat)
  assets : List RunAsset
  queue : List Job
deriving DecidableEq

/-- One part of a multipart upload. -/
structure UploadFile where
  filename : Option Txt
  content : List Nat
deriving DecidableEq

/-- The two error responses these endpoints produce. -/
inductive ApiError where
  | notFound : Txt → ApiError
  | badRequest : Txt → ApiError
deriving DecidableEq

/-- get_run: first run row with the given id. -/
def get_run (st : ApiState) (rid : Txt) : Option Run :=
  st.runs.find? (fun r => decide (r.id = rid))

/-- Path(p).name: the component after the last slash. -/
def baseName (p : Txt) : Txt :=
  (p.reverse.takeWhile (fun c => c ≠ '/')).reverse

/-- Path(name).suffix: from the last dot, empty when the name has no dot,
ends with the dot, or only starts with one. -/
def suffixOf (name : Txt) : Txt :=
  let revTail := name.reverse.takeWhile (fun c => c ≠ '.')
  if revTail.length = name.length then []
  else if revTail.length = 0 then []
  else if revTail.length + 1 = name.length then []
  else '.' :: revTail.reverse

/-- The upload loop: files without a (truthy) filename are skipped, an
unsupported extension aborts with a bad request — the state written for
earlier files persists, carried in the error — and each accepted file is
written under a generated collision-resistant name (uuid4().hex in the
source, abstracted as the fresh naming function applied to a counter) and
recorded as an asset row. -/
def processUploads (fresh : Nat → Txt) (rid : Txt) :
    ApiState → Nat → List UploadFile → Except (ApiError × ApiState) (ApiState × List RunAsset)
  | st, _, [] => .ok (st, [])
  | st, k, f :: rest =>
    match f.filename with
    | none => processUploads fresh rid st k rest
    | some fn =>
      if fn = [] then processUploads fresh rid st k rest
      else
        let original := baseName fn
        let ext := toLowerTxt (suffixOf original)
        let is_pdf := decide (ext = txt ".pdf")
        let is_img := decide (ext = txt ".png") || decide (ext = txt ".jpg")
          || decide (ext = txt ".jpeg")
        if is_pdf || is_img then
          let stored := fresh k ++ txt "_" ++ original
          let a : RunAsset :=
            { run_id := rid
              source_type := if is_pdf then txt "pdf" else txt "image"
              original_filename := original
              stored_path := stored
              page := none
              image_path := if is_pdf then none else some stored
              status := txt "uploaded" }
          let st2 := { st with
            storedFiles := st.storedFiles ++ [(stored, f.content)]
            assets := st.assets ++ [a] }
          match processUploads fresh rid st2 (k + 1) rest with
          | .ok (st3, created) => .ok (st3, a :: created)
          | .error e => .error e
        else .error (ApiError.badRequest (txt "unsupported file type: " ++ original), st)

/-- upload_assets: 404 for an unknown run, 400 when the run is not in
created status (performed before any file is touched), else the upload
loop. -/
def upload_assets (fresh : Nat → Txt) (st : ApiState) (rid : Txt)
    (files : List UploadFile) : Except (ApiError × ApiState) (ApiState × List RunAsset) :=
  match get_run st rid with
  | none => .error (ApiError.notFound (txt "run not found"), st)
  | some run =>
    if run.status ≠ txt "created" then
      .error (ApiError.badRequest (txt "run not uploadable in status=" ++ run.status), st)
    else processUploads fresh rid st 0 files

/-- update_run specialized to the fields the start endpoint writes. -/
def update_run (st : ApiState) (rid : Txt) (status stage message : Txt)
    (progress : Int) : ApiState :=
  { st with runs := st.runs.map (fun r =>
      if r.id = rid then
        { r with
          status := status
          stage := stage
          message := message
          progress_current := progress }
      else r) }

/-- start_run: 404 for an unknown run, 400 when the run is not in created
status, else the transition to queued and the enqueue of one build job. -/
def start_run (st : ApiState) (rid : Txt) : Except (ApiError × ApiState) (ApiState × Job) :=
  match get_run st rid with
  | none => .error (ApiError.notFound (txt "run not found"), st)
  | some run =>
    if run.status ≠ txt "created" then
      .error (ApiError.badRequest (txt "run not startable in status=" ++ run.status), st)
    else
      let st2 := update_run st rid (txt "queued") (txt "queued") (txt "Queued.") 0
      let job : Job := { run_id := rid, kind := txt "build" }
      .ok ({ st2 with queue := st2.queue ++ [job] }, job)

/-- C9: the upload and start endpoints succeed only while the run's status
is created; in any other status they answer 400 carrying the state exactly
as it was — no file stored, no asset or job recorded, no run mutated. -/
theorem C9_created_status_gates_upload_and_start :
    (∀ (fresh : Nat → Txt) (st : ApiState) (rid : Txt) (files : List UploadFile) (run : Run),
      get_run st rid = some run → run.status ≠ txt "created" →
      upload_assets fresh st rid files
        = .error (ApiError.badRequest (txt "run not uploadable in status=" ++ run.status), st))
    ∧ (∀ (st : ApiState) (rid : Txt) (run : Run),
      get_run st rid = some run → run.status ≠ txt "created" →
      start_run st rid
        = .error (ApiError.badRequest (txt "run not startable in status=" ++ run.status), st))
    ∧ (∀ (fresh : Nat → Txt) (st : ApiState) (rid : Txt) (files : List UploadFile)
      (st2 : ApiState) (created : List RunAsset),
      upload_assets fresh st rid files = .ok (st2, created) →
      ∃ run, get_run st rid = some run ∧ run.status = txt "created")
    ∧ (∀ (st : ApiState) (rid : Txt) (st2 : ApiState) (job : Job),
      start_run st rid = .ok (st2, job) →
      ∃ run, get_run st rid = some run ∧ run.status = txt "created") := by
  refine ⟨?_, ?_, ?_, ?_⟩
  · intro fresh st rid files run hrun hstatus
    unfold upload_assets
    rw [hrun]
    dsimp only
    rw [if_pos hstatus]
  · intro st rid run hrun hstatus
    unfold start_run
    rw [hrun]
    dsimp only
    rw [if_pos hstatus]
  · intro fresh st rid files st2 created h
    unfold upload_assets at h
    cases hrun : get_run st rid with
    | none =>
      rw [hrun] at h
      exact absurd h (by simp)
    | some run =>
      rw [hrun] at h
      dsimp only at h
      by_cases hstatus : run.status ≠ txt "created"
      · rw [if_pos hstatus] at h
        exact absurd h (by simp)
      · exact ⟨run, rfl, not_not.mp hstatus⟩
  · intro st rid st2 job h
    unfold start_run at h
    cases hrun : get_run st rid with
    | none =>
      rw [hrun] at h
      exact absurd h (by simp)
    | some run =>
      rw [hrun] at h
      dsimp only at h
      by_cases hstatus : run.status ≠ txt "created"
      · rw [if_pos hstatus] at h
        exact absurd h (by simp)
      · exact ⟨run, rfl, not_not.mp hstatus⟩

/-- The queued run of the C9 witness. -/
def runC9 : Run :=
  { id := txt "r1"
    status := txt "queued"
    stage := txt "queued"
    message := []
    progress_current := 0 }

/-- Concrete state for the C9 witness: one run already queued. -/
def stC9 : ApiState :=
  { runs := [runC9]
    storedFiles := []
    assets := []
    queue := [] }

/-- One uploaded file of the C9 witness. -/
def fileC9 : UploadFile :=
  { filename := some (txt "a.png")
    content := [1] }

/-- Witness instantiating the C9 theorem: both endpoints reject the queued
run with a bad request and the untouched state. -/
theorem C9_created_status_gates_upload_and_start_witness :
    upload_assets (fun _ => txt "n") stC9 (txt "r1") [fileC9]
      = .error (ApiError.badRequest (txt "run not uploadable in status=" ++ runC9.status), stC9)
    ∧ start_run stC9 (txt "r1")
      = .error (ApiError.badRequest (txt "run not startable in status=" ++ runC9.status), stC9) :=
  ⟨C9_created_status_gates_upload_and_start.1 (fun _ => txt "n") stC9 (txt "r1")
      [fileC9] runC9 rfl (by decide),
    C9_created_status_gates_upload_and_start.2.1 stC9 (txt "r1") runC9 rfl (by decide)⟩

/-! ## Output-file path guard (wbr_deck_agent/api/main.py, get_out_file) -/

/-- An absolute path, modelled as its component list below the filesystem
root. -/
abbrev PathComps := List Txt

/-- A well-formed path component: nonempty and free of slashes (URL path
segments and directory names satisfy this). -/
def ValidComp (c : Txt) : Prop := c ≠ [] ∧ ¬ '/' ∈ c

/-- Lexical content of (base / path).resolve(): empty and dot components
vanish, dot-dot pops the last component (staying at the root when nothing
is left), anything else is pushed.  Symbolic links are outside the
model. -/
def resolveComps : PathComps → PathComps → PathComps
  | acc, [] => acc
  | acc, c :: rest =>
    if c = txt ".." then resolveComps acc.dropLast rest
    else if c = txt "." ∨ c = [] then resolveComps acc rest
    else resolveComps (acc ++ [c]) rest

/-- str() of an absolute path: each component preceded by one slash.  (The
filesystem root itself renders as the empty text here instead of a bare
slash; the guard's verdict is unaffected because the compared base is never
the bare root.) -/
def pathChars : PathComps → Txt
  | [] => []
  | c :: cs => ('/' :: c) ++ pathChars cs

/-- The output directory of a run: repo root/out/run id (core/paths.py
out_dir). -/
def outBase (root : PathComps) (rid : Txt) : PathComps := root ++ [txt "out", rid]

/-- The resolved target of a request: (out_dir(run_id) / path).resolve(). -/
def outTarget (root : PathComps) (rid : Txt) (rel : PathComps) : PathComps :=
  resolveComps (outBase root rid) rel

/-- The guard of get_out_file: str(target).startswith(str(base)); the
request is rejected with a 400 exactly when this is false. -/
def outFileGuard (root : PathComps) (rid : Txt) (rel : PathComps) : Bool :=
  (dropLit (pathChars (outBase root rid)) (pathChars (outTarget root rid rel))).isSome

lemma dropLit_isSome_iff {α : Type} [DecidableEq α] (pre : List α) :
    ∀ s : List α, (dropLit pre s).isSome = true ↔ ∃ t, s = pre ++ t := by
  induction pre with
  | nil =>
    intro s
    simp [dropLit]
  | cons p ps ih =>
    intro s
    cases s with
    | nil => simp [dropLit]
    | cons c cs =>
      simp only [dropLit, List.cons_append, List.cons.injEq]
      by_cases hpc : p = c
      · rw [if_pos hpc]
        rw [ih cs]
        constructor
        · rintro ⟨t, ht⟩
          exact ⟨t, hpc.symm, ht⟩
        · rintro ⟨t, _h1, h2⟩
          exact ⟨t, h2⟩
      · rw [if_neg hpc]
        simp only [Option.isSome_none, Bool.false_eq_true, false_iff]
        rintro ⟨t, h1, _h2⟩
        exact hpc h1.symm

lemma mem_of_mem_dropLast {α : Type} (l : List α) (d : α) (h : d ∈ l.dropLast) : d ∈ l :=
  List.dropLast_subset l h

lemma resolveComps_valid (rel : PathComps) :
    ∀ base : PathComps, (∀ c ∈ base, ValidComp c) → (∀ c ∈ rel, ¬ '/' ∈ c) →
      ∀ c ∈ resolveComps base rel, ValidComp c := by
  induction rel with
  | nil =>
    intro base hb _ c hc
    exact hb c hc
  | cons r rs ih =>
    intro base hb hr c hc
    simp only [resolveComps] at hc
    by_cases h1 : r = txt ".."
    · rw [if_pos h1] at hc
      exact ih base.dropLast (fun d hd => hb d (mem_of_mem_dropLast _ _ hd))
        (fun d hd => hr d (List.mem_cons_of_mem _ hd)) c hc
    · rw [if_neg h1] at hc
      by_cases h2 : r = txt "." ∨ r = []
      · rw [if_pos h2] at hc
        exact ih base hb (fun d hd => hr d (List.mem_cons_of_mem _ hd)) c hc
      · rw [if_neg h2] at hc
        refine ih (base ++ [r]) ?_ (fun d hd => hr d (List.mem_cons_of_mem _ hd)) c hc
        intro d hd
        rcases List.mem_append.mp hd with h | h
        · exact hb d h
        · have hd2 : d = r := by simpa using h
          subst hd2
          push_neg at h2
          exact ⟨h2.2, hr d (List.mem_cons_self _ _)⟩

lemma pathChars_split (b : PathComps) :
    ∀ t : PathComps, (∀ c ∈ b, ValidComp c) → (∀ c ∈ t, ValidComp c) →
      (∃ ext, pathChars t = pathChars b ++ ext) →
      (∃ rest, t = b ++ rest)
      ∨ ∃ ext, ext ≠ [] ∧ ext.head? ≠ some '/'
        ∧ pathChars t = pathChars b ++ ext := by
  induction b with
  | nil =>
    intro t _ _ _
    exact Or.inl ⟨t, rfl⟩
  | cons b0 bs ih =>
    intro t hb ht hex
    obtain ⟨ext, hext⟩ := hex
    cases t with
    | nil =>
      exfalso
      simp [pathChars] at hext
    | cons t0 ts =>
      have h2 : ('/' :: (t0 ++ pathChars ts) : Txt)
          = '/' :: (b0 ++ (pathChars bs ++ ext)) := by
        simpa [pathChars, List.cons_append, List.append_assoc] using hext
      injection h2 with _hs hx
      rcases List.append_eq_append_iff.mp hx with ⟨k, hk1, hk2⟩ | ⟨k, hk1, hk2⟩
      · -- b0 = t0 ++ k and pathChars ts = k ++ (pathChars bs ++ ext)
        cases k with
        | nil =>
          rw [List.append_nil] at hk1
          rw [List.nil_append] at hk2
          have hrec := ih ts (fun c hc => hb c (List.mem_cons_of_mem _ hc))
            (fun c hc => ht c (List.mem_cons_of_mem _ hc)) ⟨ext, hk2⟩
          rcases hrec with ⟨rest, hrest⟩ | ⟨ext2, he1, he2, he3⟩
          · left
            exact ⟨rest, by rw [List.cons_append, hk1, hrest]⟩
          · right
            refine ⟨ext2, he1, he2, ?_⟩
            simp only [pathChars, List.cons_append, List.append_assoc]
            rw [hk1, he3]
        | cons kc ks =>
          exfalso
          cases ts with
          | nil => simp [pathChars] at hk2
          | cons u us =>
            have h3 : ('/' :: (u ++ pathChars us) : Txt)
                = kc :: (ks ++ (pathChars bs ++ ext)) := by
              simpa [pathChars, List.cons_append, List.append_assoc] using hk2
            injection h3 with hhead _
            have hmem : '/' ∈ b0 := by
              rw [hk1, hhead]
              exact List.mem_append_right _ (List.mem_cons_self _ _)
            exact (hb b0 (List.mem_cons_self _ _)).2 hmem
      · -- t0 = b0 ++ k and pathChars bs ++ ext = k ++ pathChars ts
        cases k with
        | nil =>
          rw [List.append_nil] at hk1
          rw [List.nil_append] at hk2
          have hrec := ih ts (fun c hc => hb c (List.mem_cons_of_mem _ hc))
            (fun c hc => ht c (List.mem_cons_of_mem _ hc)) ⟨ext, hk2.symm⟩
          rcases hrec with ⟨rest, hrest⟩ | ⟨ext2, he1, he2, he3⟩
          · left
            exact ⟨rest, by rw [List.cons_append, hk1, hrest]⟩
          · right
            refine ⟨ext2, he1, he2, ?_⟩
            simp only [pathChars, List.cons_append, List.append_assoc]
            rw [hk1, he3]
        | cons kc ks =>
          have hkc : kc ≠ '/' := by
            have hmem : kc ∈ t0 := by
              rw [hk1]
              exact List.mem_append_right _ (List.mem_cons_self _ _)
            intro hkceq
            rw [hkceq] at hmem
            exact (ht t0 (List.mem_cons_self _ _)).2 hmem
          cases bs with
          | nil =>
            right
            have hext2 : ext = kc :: (ks ++ pathChars ts) := by
              simpa [pathChars] using hk2
            refine ⟨ext, ?_, ?_, hext⟩
            · rw [hext2]
              simp
            · rw [hext2]
              simp [hkc]
          | cons v vs =>
            exfalso
            have h3 : ('/' :: (v ++ (pathChars vs ++ ext)) : Txt)
                = kc :: (ks ++ pathChars ts) := by
              simpa [pathChars, List.cons_append, List.append_assoc] using hk2
            injection h3 with hhead _
            exact hkc hhead.symm

/-- C2 as frozen is falsified by the prefix check without a trailing
separator: the request path ../rr/s for run id r resolves to out/rr/s,
a location outside the run's output directory out/r, yet the guard accepts
it because the string /out/rr/s starts with the string /out/r; the file
would be served, not answered with a bad request. -/
theorem C2_counterexample_sibling_escape :
    outFileGuard [] (txt "r") [txt "..", txt "rr", txt "s"] = true
    ∧ (dropLit (outBase [] (txt "r"))
        (outTarget [] (txt "r") [txt "..", txt "rr", txt "s"])).isSome = false := by
  constructor
  · decide
  · decide

/-- C2 amended: whenever the guard accepts a request, the resolved target
either lies inside the run's output directory (the base components lead
its components) or escapes only into a sibling whose path string extends
the output directory's string without an intervening slash — that is, a
directory whose name has the run directory's name as a proper prefix.
Any other resolution outside the directory is rejected with the bad
request. -/
theorem C2_path_guard_amended :
    ∀ (root : PathComps) (rid : Txt) (rel : PathComps),
      (∀ c ∈ root, ValidComp c) → ValidComp rid → (∀ c ∈ rel, ¬ '/' ∈ c) →
      outFileGuard root rid rel = true →
      (∃ rest, outTarget root rid rel = outBase root rid ++ rest)
      ∨ ∃ ext, ext ≠ [] ∧ ext.head? ≠ some '/'
        ∧ pathChars (outTarget root rid rel) = pathChars (outBase root rid) ++ ext := by
  intro root rid rel hroot hrid hrel hguard
  have hbase : ∀ c ∈ outBase root rid, ValidComp c := by
    intro c hc
    rcases List.mem_append.mp hc with h | h
    · exact hroot c h
    · rcases List.mem_cons.mp h with h1 | h1
      · subst h1
        refine ⟨by decide, by decide⟩
      · rcases List.mem_cons.mp h1 with h2 | h2
        · subst h2
          exact hrid
        · simp at h2
  have htarget : ∀ c ∈ outTarget root rid rel, ValidComp c :=
    resolveComps_valid rel (outBase root rid) hbase hrel
  have hex : ∃ ext, pathChars (outTarget root rid rel)
      = pathChars (outBase root rid) ++ ext :=
    (dropLit_isSome_iff _ _).mp hguard
  exact pathChars_split (outBase root rid) (outTarget root rid rel) hbase htarget hex

/-- Witness instantiating the amended C2 theorem on an ordinary in-bounds
request. -/
theorem C2_path_guard_amended_witness :
    (∃ rest, outTarget [] (txt "r7") [txt "thumbs", txt "a.png"]
      = outBase [] (txt "r7") ++ rest)
    ∨ ∃ ext, ext ≠ [] ∧ ext.head? ≠ some '/'
      ∧ pathChars (outTarget [] (txt "r7") [txt "thumbs", txt "a.png"])
        = pathChars (outBase [] (txt "r7")) ++ ext :=
  C2_path_guard_amended [] (txt "r7") [txt "thumbs", txt "a.png"]
    (by simp) ⟨by decide, by decide⟩ (by decide) (by decide)

end WbrSpec
